import Mathlib

/-!
# Verification of `tree.py` (samstav/binarytree)

Shallow embedding of `src/tree.py`. The Python module defines:

* `BinaryTree(value, left=None, right=None)` — a node with a value and two
  optional child slots (`_left`, `_right`), structural equality (`__eq__`),
  subtree containment (`__contains__`), serialization to a mapping
  (`__iter__` / `dict`), and `left`/`right` accessor properties that raise
  `Null` when the slot is absent;
* `AutoBinaryTree` — a subclass whose `left`/`right` accessors materialize a
  missing child with a fresh random seed value and cache it in the slot;
* `gen_tree(depth, iterable)` — a bottom-up builder of a complete binary
  tree of the given depth, drawing node values from the supplied iterable
  (cycled) or from an endless random-integer source.

The value type is a parameter `α` with decidable equality, matching the
opaque comparable payload of the Python code.  Randomness (`randint`) is
modelled as an explicit stream `Nat → α` of draws.
-/

/-- A `BinaryTree` node as constructed by `BinaryTree.__init__`: a value and
the two raw child slots `self._left`, `self._right` (Python `None` is
`Option.none`). -/
inductive BinaryTree (α : Type) where
  | node (value : α) ( _left _right : Option (BinaryTree α))
  deriving Repr

namespace BinaryTree

variable {α : Type}

/-- The `self.value` attribute. -/
def value : BinaryTree α → α
  | .node v _ _ => v

/-- The raw `self._left` attribute (not the growing accessor). -/
def rawL : BinaryTree α → Option (BinaryTree α)
  | .node _ l _ => l

/-- The raw `self._right` attribute (not the growing accessor). -/
def rawR : BinaryTree α → Option (BinaryTree α)
  | .node _ _ r => r

/-- `BinaryTree.is_leaf`: `not self._left and not self._right` (a stored
child node is always truthy, so this tests both slots for `None`). -/
def is_leaf : BinaryTree α → Bool
  | .node _ l r => l.isNone && r.isNone

mutual

/-- `BinaryTree.__eq__`: the identity fast path collapses in a structural
model; otherwise values must be equal, `is_leaf` must match, and the raw
child slots must be equal under Python `==` on optionals (`beqOpt`). -/
def beq [DecidableEq α] : BinaryTree α → BinaryTree α → Bool
  | .node v₁ l₁ r₁, .node v₂ l₂ r₂ =>
      decide (v₁ = v₂)
        && ((l₁.isNone && r₁.isNone) == (l₂.isNone && r₂.isNone))
        && beqOpt l₁ l₂ && beqOpt r₁ r₂

/-- Python `==` applied to the raw child slots: `None == None` is `True`;
`None` against a node fails `isinstance` and is `False`; two nodes recurse
through `BinaryTree.__eq__`. -/
def beqOpt [DecidableEq α] : Option (BinaryTree α) → Option (BinaryTree α) → Bool
  | none, none => true
  | some a, some b => beq a b
  | _, _ => false

end

/-- The `Null` exception (`"Tree branch points to nothing."`): raised by the
base accessors on an absent slot.  The Python message embeds `self._inst`
(the node's `repr` and memory address); the embedding carries the offending
node itself. -/
inductive Null (α : Type) where
  | mk (offending : BinaryTree α) : Null α
  deriving Repr

/-- The base `BinaryTree.left` property: the stored child if present,
otherwise `raise Null(...)` identifying the offending node. -/
def left : BinaryTree α → Except (Null α) (BinaryTree α)
  | t => match t.rawL with
    | some l => .ok l
    | none => .error (.mk t)

/-- The base `BinaryTree.right` property: the stored child if present,
otherwise `raise Null(...)` identifying the offending node. -/
def right : BinaryTree α → Except (Null α) (BinaryTree α)
  | t => match t.rawR with
    | some r => .ok r
    | none => .error (.mk t)

/-- `BinaryTree.__contains__(self, other)` on the base variant:
`other == self`, else search `self.left` catching `Null` as a negative
result, else likewise `self.right`.  The `try/except Null` around each
child access is modelled by the `none` branches returning `false`. -/
def containsB [DecidableEq α] : BinaryTree α → BinaryTree α → Bool
  | .node v l r, other =>
      if beq other (.node v l r) then true
      else
        let isinL := match l with
          | some a => containsB a other
          | none => false
        if isinL then true
        else match r with
          | some b => containsB b other
          | none => false

/-- All complete subtrees of a tree (the tree itself and, recursively, the
subtrees of each present child).  Used only to state what containment
computes; not part of the Python source. -/
def subtrees : BinaryTree α → List (BinaryTree α)
  | .node v l r =>
      .node v l r ::
        ((match l with | some a => subtrees a | none => []) ++
         (match r with | some b => subtrees b | none => []))

/-- One value of the serialized mapping produced by `dict(tree)`: either a
plain payload value or a nested mapping. -/
inductive MapVal (α : Type) where
  | prim (v : α) : MapVal α
  | obj (entries : List (String × MapVal α)) : MapVal α
  deriving Repr

/-- `BinaryTree.__iter__` collected into the ordered mapping `dict(self)`:
always the pair `("value", self.value)`; then `("left", dict(self.left))`
if `self._left is not None`; then `("right", dict(self.right))` likewise.
(The guarded `self.left` accessor cannot raise, and on the lazy variant
cannot grow, because the slot was just tested.) -/
def to_map : BinaryTree α → List (String × MapVal α)
  | .node v l r =>
      ("value", .prim v) ::
        ((match l with | some a => [("left", .obj (to_map a))] | none => []) ++
         (match r with | some b => [("right", .obj (to_map b))] | none => []))

/-- The height of a tree (1 for a leaf); used to bound the fuel of the
step-counted containment search. -/
def height : BinaryTree α → Nat
  | .node _ l r =>
      1 + max (match l with | some a => height a | none => 0)
              (match r with | some b => height b | none => 0)

end BinaryTree

namespace GenTree

variable {α : Type}

open BinaryTree

/-- The value source built by `gen_tree`'s first two lines, as the function
giving the `n`-th value drawn: `if not iterable` (absent **or** empty, by
truthiness) the endless `randint` stream `rand` is used; otherwise the
supplied finite sequence is cycled (`itertools.cycle`). -/
def source (iterable : Option (List α)) (rand : Nat → α) : Nat → α :=
  match iterable with
  | none => rand
  | some [] => rand
  | some (x :: xs) => fun n =>
      (x :: xs).get ⟨n % (x :: xs).length, Nat.mod_lt _ (Nat.succ_pos _)⟩

/-- `count = sum(2**x for x in xrange(depth))`, the total node count
`2^depth - 1` (an empty sum, hence `0`, for `depth <= 0`). -/
def count (depth : Int) : Nat :=
  ((List.range depth.toNat).map (2 ^ ·)).sum

/-- One pass of the `while` body: zip `row[::2]` with `row[1::2]` and wrap
each pair as a parent drawing the next value, left to right (`vals i` for
the first pair, `vals (i+1)` for the second, …).  Returns the new row and
the next draw index.  An odd trailing element is dropped, as `izip` stops
at the shorter argument. -/
def pairRow (vals : Nat → α) : List (BinaryTree α) → Nat →
    List (BinaryTree α) × Nat
  | x :: y :: rest, i =>
      let (tail, i') := pairRow vals rest (i + 1)
      (.node (vals i) (some x) (some y) :: tail, i')
  | _, i => ([], i)

/-- The `while len(row) != 1` loop, fuel-counted: each pass pairs the row
up.  `none` means the fuel ran out before the row reached length 1 (the
Python loop would still be running); for every tree `gen_tree` builds the
fuel `depth` suffices. -/
def buildLoop (vals : Nat → α) : Nat → List (BinaryTree α) → Nat →
    Option (BinaryTree α)
  | _, [r], _ => some r
  | 0, _, _ => none
  | fuel + 1, row, i =>
      let (row', i') := pairRow vals row i
      buildLoop vals fuel row' i'

/-- `gen_tree(depth, iterable)`: returns `none` (Python `return` → `None`)
when the node count is below 1; otherwise builds `2^(depth-1)` leaves from
draws `0, 1, …` and folds them bottom-up with `buildLoop`.  `rand` models
the endless random-integer source used when `iterable` is falsy. -/
def gen_tree (depth : Int) (iterable : Option (List α)) (rand : Nat → α) :
    Option (BinaryTree α) :=
  let vals := source iterable rand
  if count depth < 1 then none
  else
    let nleaves := 2 ^ (depth - 1).toNat
    let row := (List.range nleaves).map fun k => BinaryTree.node (vals k) none none
    buildLoop vals depth.toNat row nleaves

end GenTree

namespace AutoBinaryTree

variable {α : Type}

open BinaryTree

/-- `AutoBinaryTree.left`: `if not self._left` synthesize a child of the
same type seeded with `randint()` — modelled by the explicit draw `fresh` —
store it in the slot and return it; otherwise return the stored child.
The result pairs the returned child with the node's updated state. -/
def autoLeft (t : BinaryTree α) (fresh : α) : BinaryTree α × BinaryTree α :=
  match t with
  | .node v (some l) r => (l, .node v (some l) r)
  | .node v none r =>
      (.node fresh none none, .node v (some (.node fresh none none)) r)

/-- `AutoBinaryTree.right`, the mirror image of `autoLeft`. -/
def autoRight (t : BinaryTree α) (fresh : α) : BinaryTree α × BinaryTree α :=
  match t with
  | .node v l (some r) => (r, .node v l (some r))
  | .node v l none =>
      (.node fresh none none, .node v l (some (.node fresh none none)))

/-- Replace the left slot of a node (the parent keeps referencing the same
child object, so mutations made inside the child during a recursive call
are visible through the parent; state passing makes that explicit). -/
def setL (t : BinaryTree α) (l : BinaryTree α) : BinaryTree α :=
  match t with
  | .node v _ r => .node v (some l) r

/-- Replace the right slot of a node. -/
def setR (t : BinaryTree α) (r : BinaryTree α) : BinaryTree α :=
  match t with
  | .node v l _ => .node v l (some r)

/-- Drop the first draw of a random stream. -/
def tl (vs : Nat → α) : Nat → α := fun n => vs (n + 1)

/-- The inherited `BinaryTree.__contains__` executed on an `AutoBinaryTree`
`self`, step-counted: `other == self`, else recurse into `self.left`, else
into `self.right` — but `self.left`/`self.right` are the growing accessors,
which never raise `Null`: an absent slot is filled with a fresh leaf drawn
from the stream `vs` and the search continues inside it.  The result
carries the answer, `self`'s state after the call, and the remaining
stream; `none` means the call has not returned within `fuel` steps. -/
def autoContains [DecidableEq α] (other : BinaryTree α) :
    Nat → BinaryTree α → (Nat → α) →
    Option (Bool × BinaryTree α × (Nat → α))
  | 0, _, _ => none
  | fuel + 1, self, vs =>
      if beq other self then some (true, self, vs)
      else
        let grownL := autoLeft self (vs 0)
        let vs₁ := if (self.rawL).isSome then vs else tl vs
        match autoContains other fuel grownL.1 vs₁ with
        | none => none
        | some (isinL, l', vs₂) =>
            let self₁ := setL grownL.2 l'
            if isinL then some (true, self₁, vs₂)
            else
              let grownR := autoRight self₁ (vs₂ 0)
              let vs₃ := if (self₁.rawR).isSome then vs₂ else tl vs₂
              match autoContains other fuel grownR.1 vs₃ with
              | none => none
              | some (isinR, r', vs₄) => some (isinR, setR grownR.2 r', vs₄)

end AutoBinaryTree

namespace BinaryTree

variable {α : Type}

/-- `BinaryTree.__contains__` on the base variant, step-counted: the same
procedure as `containsB`, but each recursive call consumes one unit of
fuel, and `none` means the call has not returned within that many nested
calls.  Relating this to the total function `containsB` expresses that the
base search always returns a boolean in finitely many steps. -/
def containsFuel [DecidableEq α] : Nat → BinaryTree α → BinaryTree α →
    Option Bool
  | 0, _, _ => none
  | fuel + 1, self, other =>
      if beq other self then some true
      else
        let isinL : Option Bool := match self.rawL with
          | some a => containsFuel fuel a other
          | none => some false
        match isinL with
        | none => none
        | some true => some true
        | some false =>
            match self.rawR with
            | some b => containsFuel fuel b other
            | none => some false

end BinaryTree

namespace BinaryTree

variable {α : Type} [DecidableEq α]

mutual

/-- `BinaryTree.__eq__` holds exactly on structurally identical trees. -/
theorem beq_eq_iff : ∀ a b : BinaryTree α, beq a b = true ↔ a = b
  | .node v₁ l₁ r₁, .node v₂ l₂ r₂ => by
      simp only [beq, Bool.and_eq_true, decide_eq_true_eq]
      constructor
      · rintro ⟨⟨⟨hv, -⟩, hl⟩, hr⟩
        rw [beqOpt_eq_iff l₁ l₂] at hl
        rw [beqOpt_eq_iff r₁ r₂] at hr
        rw [hv, hl, hr]
      · intro h
        injection h with hv hl hr
        subst hv; subst hl; subst hr
        exact ⟨⟨⟨rfl, by simp⟩, (beqOpt_eq_iff l₁ l₁).mpr rfl⟩,
          (beqOpt_eq_iff r₁ r₁).mpr rfl⟩

/-- Python `==` on raw child slots holds exactly on identical slots. -/
theorem beqOpt_eq_iff : ∀ a b : Option (BinaryTree α), beqOpt a b = true ↔ a = b
  | none, none => by simp [beqOpt]
  | some a, some b => by
      simp only [beqOpt, Option.some.injEq]
      exact beq_eq_iff a b
  | none, some _ => by simp [beqOpt]
  | some _, none => by simp [beqOpt]

end

/-- Equality is reflexive. -/
theorem beq_refl (t : BinaryTree α) : beq t t = true :=
  (beq_eq_iff t t).mpr rfl

/-- Equality is symmetric. -/
theorem beq_symm (a b : BinaryTree α) : beq a b = beq b a := by
  by_cases h : a = b
  · subst h; rfl
  · have h₁ : beq a b ≠ true := fun hh => h ((beq_eq_iff a b).mp hh)
    have h₂ : beq b a ≠ true := fun hh => h (((beq_eq_iff b a).mp hh).symm)
    simp only [Bool.not_eq_true] at h₁ h₂
    rw [h₁, h₂]

omit [DecidableEq α] in
/-- Unfolding equation for `subtrees` at a node. -/
theorem subtrees_eq (v : α) (l r : Option (BinaryTree α)) :
    subtrees (.node v l r) = .node v l r ::
      ((match l with | some a => subtrees a | none => []) ++
       (match r with | some b => subtrees b | none => [])) := by
  rw [subtrees.eq_def]

/-- The base containment procedure at a node, rephrased as a disjunction:
equal to the node itself, or found in a present left child, or found in a
present right child (an absent child contributes `false`, the caught
`Null`). -/
theorem containsB_node (v : α) (l r : Option (BinaryTree α)) (x : BinaryTree α) :
    containsB (.node v l r) x =
      (beq x (.node v l r)
        || (match l with | some a => containsB a x | none => false)
        || (match r with | some b => containsB b x | none => false)) := by
  rw [containsB.eq_def]
  cases hbeq : beq x (.node v l r)
  · cases l with
    | none =>
        cases r with
        | none => simp [hbeq]
        | some b => simp [hbeq]
    | some a =>
        cases r with
        | none => cases h : containsB a x <;> simp [hbeq, h]
        | some b => cases h : containsB a x <;> simp [hbeq, h]
  · simp [hbeq]

/-- The base containment search succeeds exactly on the complete subtrees
of the searched tree. -/
theorem containsB_mem_iff : ∀ (t x : BinaryTree α),
    containsB t x = true ↔ x ∈ subtrees t
  | .node v l r, x => by
      rw [containsB_node, subtrees_eq]
      have h₁ := beq_eq_iff x (.node v l r)
      cases l with
      | none =>
          cases r with
          | none => simp [h₁]
          | some b =>
              have ihb := containsB_mem_iff b x
              simp [h₁, ihb]
      | some a =>
          have iha := containsB_mem_iff a x
          cases r with
          | none => simp [h₁, iha]
          | some b =>
              have ihb := containsB_mem_iff b x
              simp [h₁, iha, ihb, or_assoc]

omit [DecidableEq α] in
/-- Unfolding equation for `height` at a node. -/
theorem height_eq (v : α) (l r : Option (BinaryTree α)) :
    height (.node v l r) =
      1 + max (match l with | some a => height a | none => 0)
              (match r with | some b => height b | none => 0) := by
  rw [height.eq_def]

/-- With fuel exceeding the tree's height, the step-counted base search
returns, and returns what the total function computes: the base containment
search terminates on every input. -/
theorem containsFuel_eq : ∀ (fuel : Nat) (t x : BinaryTree α),
    height t < fuel → containsFuel fuel t x = some (containsB t x)
  | fuel + 1, .node v l r, x, h => by
      rw [height_eq] at h
      simp only [containsFuel, rawL, rawR]
      rw [containsB_node]
      cases l with
      | none =>
          cases r with
          | none => cases hbeq : beq x (.node v none none) <;> simp [hbeq]
          | some b =>
              have hb : height b < fuel := by dsimp only at h; omega
              dsimp only
              rw [containsFuel_eq fuel b x hb]
              cases hbeq : beq x (.node v none (some b)) <;>
                cases hcb : containsB b x <;> simp [hbeq, hcb]
      | some a =>
          have ha : height a < fuel := by dsimp only at h; omega
          dsimp only
          rw [containsFuel_eq fuel a x ha]
          cases r with
          | none =>
              cases hbeq : beq x (.node v (some a) none) <;>
                cases hca : containsB a x <;> simp [hbeq, hca]
          | some b =>
              have hb : height b < fuel := by dsimp only at h; omega
              dsimp only
              rw [containsFuel_eq fuel b x hb]
              cases hbeq : beq x (.node v (some a) (some b)) <;>
                cases hca : containsB a x <;>
                cases hcb : containsB b x <;> simp [hbeq, hca, hcb]

end BinaryTree

namespace AutoBinaryTree

open BinaryTree

variable {α : Type} [DecidableEq α]

/-- A non-leaf tree never equals a leaf under `BinaryTree.__eq__`. -/
theorem beq_nonleaf_leaf (x : BinaryTree α) (hx : x.is_leaf = false) (v : α) :
    beq x (.node v none none) = false := by
  cases x with
  | node xv xl xr =>
      simp only [is_leaf] at hx
      simp [beq, hx]

/-- The inherited containment search, run on a lazily-growing variant,
never returns when the searched tree is not a leaf and the start node is a
fresh leaf: the growing `left` accessor materializes a fresh leaf at every
step, the target never equals a leaf, and the recursion descends forever. -/
theorem autoContains_nonleaf_none (x : BinaryTree α) (hx : x.is_leaf = false) :
    ∀ (fuel : Nat) (v : α) (vs : Nat → α),
      autoContains x fuel (.node v none none) vs = none := by
  intro fuel
  induction fuel with
  | zero => intro v vs; rfl
  | succ n ih =>
      intro v vs
      simp only [autoContains, beq_nonleaf_leaf x hx v, Bool.false_eq_true,
        if_false, autoLeft, rawL, Option.isSome_none]
      rw [ih (vs 0) (tl vs)]

end AutoBinaryTree

open BinaryTree GenTree AutoBinaryTree

/-- C1: `build(depth=3, values=[0,1,2,3,4,5,6])` returns exactly the tree
`6(left=4(left=0,right=1), right=5(left=2,right=3))`: leaves 0,1,2,3 left
to right, internal nodes 4 and 5 left to right, root 6 last, for every
random source (none of whose values are drawn). -/
theorem spec_C1 (rand : Nat → Int) :
    gen_tree 3 (some [0, 1, 2, 3, 4, 5, 6]) rand =
      some (.node 6
        (some (.node 4 (some (.node 0 none none)) (some (.node 1 none none))))
        (some (.node 5 (some (.node 2 none none)) (some (.node 3 none none))))) := by
  rfl

/-- C2: node equality is reflexive and symmetric; it holds exactly on
structurally identical trees; and it holds exactly when the values agree,
the leaf statuses agree, and the raw child slots agree under the same
recursive rule (both absent counting as equal) — so any single difference
in value, leaf status or a subtree makes the nodes unequal. -/
theorem spec_C2 {α : Type} [DecidableEq α] (a b : BinaryTree α) :
    beq a a = true ∧ beq a b = beq b a ∧ (beq a b = true ↔ a = b) ∧
    (beq a b = true ↔
      a.value = b.value ∧ a.is_leaf = b.is_leaf ∧
      beqOpt a.rawL b.rawL = true ∧ beqOpt a.rawR b.rawR = true) := by
  refine ⟨beq_refl a, beq_symm a b, beq_eq_iff a b, ?_⟩
  cases a with
  | node v₁ l₁ r₁ =>
      cases b with
      | node v₂ l₂ r₂ => simp [beq, is_leaf, value, rawL, rawR, and_assoc]

/-- C3: every tree contains itself, and the containment search succeeds
exactly when some complete subtree of the searched tree equals the other
tree — a value occurring in the tree does not suffice, and an absent child
is silently "not contained on that side". -/
theorem spec_C3 {α : Type} [DecidableEq α] (t x : BinaryTree α) :
    containsB t t = true ∧ (containsB t x = true ↔ x ∈ subtrees t) := by
  refine ⟨?_, containsB_mem_iff t x⟩
  rw [containsB_mem_iff]
  cases t with
  | node v l r => rw [subtrees_eq]; exact List.mem_cons_self _ _

/-- C4 (amended): on the base variant the containment search always
returns a boolean in finitely many steps — fuel exceeding the tree's
height makes the step-counted search return the total function's answer.
On the lazily-growing variant this fails: it is not true that every lazy
search returns, since the growing accessors never raise `Null` and keep
materializing fresh leaves. -/
theorem spec_C4 {α : Type} [DecidableEq α] (t x : BinaryTree α) (fuel : Nat)
    (h : height t < fuel) :
    containsFuel fuel t x = some (containsB t x) ∧
    ¬ ∀ (y s : BinaryTree Int) (vs : Nat → Int),
        ∃ f res, autoContains y f s vs = some res := by
  refine ⟨containsFuel_eq fuel t x h, fun hall => ?_⟩
  obtain ⟨f, res, hres⟩ :=
    hall (.node 0 (some (.node 0 none none)) none) (.node 0 none none) (fun _ => 0)
  rw [autoContains_nonleaf_none (.node 0 (some (.node 0 none none)) none) (by decide) f 0 (fun _ => 0)] at hres
  exact Option.noConfusion hres

/-- C4 witness: the amended termination statement at a concrete input. -/
theorem spec_C4_witness :
    containsFuel 2 (.node (0 : Int) none none) (.node 0 none none) =
      some (containsB (.node (0 : Int) none none) (.node 0 none none)) ∧
    ¬ ∀ (y s : BinaryTree Int) (vs : Nat → Int),
        ∃ f res, autoContains y f s vs = some res :=
  spec_C4 (.node 0 none none) (.node 0 none none) 2 (by decide)

/-- C4 counterexample: the claim that the containment search always
returns "holds unchanged on the lazily-growing variant" is false — the
search for the non-leaf `0(left=0)` inside a fresh lazily-growing leaf `0`
has not returned after any finite number of steps. -/
theorem spec_C4_counterexample :
    ¬ ∃ (fuel : Nat) (res : Bool × BinaryTree Int × (Nat → Int)),
        autoContains (.node 0 (some (.node 0 none none)) none) fuel
          (.node 0 none none) (fun _ => 0) = some res := by
  rintro ⟨fuel, res, h⟩
  rw [autoContains_nonleaf_none (.node 0 (some (.node 0 none none)) none) (by decide) fuel 0 (fun _ => 0)] at h
  exact Option.noConfusion h

/-- C5: equality compares the raw stored child slots (the pure `beq` over
stored state, never the growing accessor, which is a separate state
transformer), so it triggers no lazy growth and changes no slot.  Two
fresh lazily-growing leaves with equal seed values compare equal; after
exactly one of them has its left child accessed (grown through
`autoLeft`), they compare unequal because their leaf statuses differ. -/
theorem spec_C5 {α : Type} [DecidableEq α] (v fresh : α) :
    beq (.node v none none) (.node v none none) = true ∧
    beq (autoLeft (.node v none none) fresh).2 (.node v none none) = false := by
  constructor
  · exact beq_refl _
  · simp [autoLeft, beq]

/-- Unfolding equation for `to_map` at a node. -/
theorem to_map_eq {α : Type} (v : α) (l r : Option (BinaryTree α)) :
    to_map (.node v l r) = ("value", .prim v) ::
      ((match l with | some a => [("left", .obj (to_map a))] | none => []) ++
       (match r with | some b => [("right", .obj (to_map b))] | none => [])) := by
  rw [to_map.eq_def]

/-- C6: the serialization of any tree always carries the key `"value"`
bound to the node's value, carries `"left"` exactly when a left child is
stored (bound to that child's own serialization), and likewise `"right"`;
an absent child yields an absent key. -/
theorem spec_C6 {α : Type} (t : BinaryTree α) :
    (to_map t).lookup "value" = some (.prim t.value) ∧
    (to_map t).lookup "left" = t.rawL.map (fun l => .obj (to_map l)) ∧
    (to_map t).lookup "right" = t.rawR.map (fun r => .obj (to_map r)) := by
  cases t with
  | node v l r =>
      cases l <;> cases r <;>
        simp [to_map_eq, rawL, rawR, value, List.lookup]

/-- C7: on a lazily-growing node with an absent slot, the first accessor
call returns a freshly synthesized leaf seeded with the drawn value,
stores exactly that node in the slot (leaving the other slot untouched),
and every later call returns the identical stored node with no further
state change. -/
theorem spec_C7 {α : Type} (t : BinaryTree α) (fL fL' fR fR' : α)
    (hL : t.rawL = none) (hR : t.rawR = none) :
    ((autoLeft t fL).1 = .node fL none none ∧
     ((autoLeft t fL).2).rawL = some (autoLeft t fL).1 ∧
     ((autoLeft t fL).2).rawR = t.rawR ∧
     autoLeft (autoLeft t fL).2 fL' = ((autoLeft t fL).1, (autoLeft t fL).2)) ∧
    ((autoRight t fR).1 = .node fR none none ∧
     ((autoRight t fR).2).rawR = some (autoRight t fR).1 ∧
     ((autoRight t fR).2).rawL = t.rawL ∧
     autoRight (autoRight t fR).2 fR' = ((autoRight t fR).1, (autoRight t fR).2)) := by
  cases t with
  | node v l r =>
      simp only [rawL, rawR] at hL hR
      subst hL; subst hR
      simp [autoLeft, autoRight, rawL, rawR]

/-- C7 witness: lazy growth and its idempotence at a concrete node. -/
theorem spec_C7_witness :
    ((autoLeft (.node (0 : Int) none none) 1).1 = .node 1 none none ∧
     ((autoLeft (.node (0 : Int) none none) 1).2).rawL =
       some (autoLeft (.node (0 : Int) none none) 1).1 ∧
     ((autoLeft (.node (0 : Int) none none) 1).2).rawR =
       (BinaryTree.node (0 : Int) none none).rawR ∧
     autoLeft (autoLeft (.node (0 : Int) none none) 1).2 2 =
       ((autoLeft (.node (0 : Int) none none) 1).1,
        (autoLeft (.node (0 : Int) none none) 1).2)) ∧
    ((autoRight (.node (0 : Int) none none) 3).1 = .node 3 none none ∧
     ((autoRight (.node (0 : Int) none none) 3).2).rawR =
       some (autoRight (.node (0 : Int) none none) 3).1 ∧
     ((autoRight (.node (0 : Int) none none) 3).2).rawL =
       (BinaryTree.node (0 : Int) none none).rawL ∧
     autoRight (autoRight (.node (0 : Int) none none) 3).2 4 =
       ((autoRight (.node (0 : Int) none none) 3).1,
        (autoRight (.node (0 : Int) none none) 3).2)) :=
  spec_C7 (.node 0 none none) 1 2 3 4 rfl rfl

/-- C8: on the base variant the `left`/`right` accessors return the stored
child exactly when the slot holds one, and fail with a `Null` error
carrying the offending node exactly when the slot is absent; being pure
functions of the node they mutate nothing. -/
theorem spec_C8 {α : Type} (t : BinaryTree α) :
    (∀ l, BinaryTree.left t = .ok l ↔ t.rawL = some l) ∧
    (BinaryTree.left t = .error (.mk t) ↔ t.rawL = none) ∧
    (∀ r, BinaryTree.right t = .ok r ↔ t.rawR = some r) ∧
    (BinaryTree.right t = .error (.mk t) ↔ t.rawR = none) := by
  cases t with
  | node v l r =>
      cases l <;> cases r <;>
        simp [BinaryTree.left, BinaryTree.right, rawL, rawR]

/-- C9: whenever the total node count `2^depth - 1` is not positive — in
particular for every `depth <= 0` — the builder returns `None` without
drawing any value: the result is independent of both the supplied sequence
and the random source. -/
theorem spec_C9 {α : Type} (depth : Int) (it : Option (List α))
    (rand : Nat → α) (h : depth ≤ 0) :
    count depth < 1 ∧ gen_tree depth it rand = none := by
  have hc : count depth = 0 := by
    unfold count
    rw [Int.toNat_of_nonpos h]
    rfl
  exact ⟨by omega, by unfold gen_tree; rw [hc]; rfl⟩

/-- C9 witness: the builder degrades to `None` at `depth = -1`. -/
theorem spec_C9_witness :
    count (-1) < 1 ∧ gen_tree (-1) (some [(5 : Int)]) (fun _ => 9) = none :=
  spec_C9 (-1) (some [5]) (fun _ => 9) (by decide)

/-- C10: an empty supplied value sequence is treated like no sequence at
all — `if not iterable` tests truthiness, so the builder falls back to the
endless random source instead of cycling the empty sequence. -/
theorem spec_C10 {α : Type} (depth : Int) (rand : Nat → α) :
    gen_tree depth (some []) rand = gen_tree depth none rand := rfl
